import Mathlib

/-!
Shallow embedding of the change-analysis pipeline of the code-connoisseur
CLI (source files `src/cli.js` and `src/codeAnalyzer.js`), together with
proofs about the embedded definitions.

Modelling conventions:
* JavaScript strings are Lean `String`s; `String.prototype.includes` is
  embedded as `jsIncludes` (substring containment over character lists).
* Node `path` helpers (`extname`, `basename`, `dirname`, `join`,
  `resolve`) are embedded over slash-separated paths as produced by the
  program itself.
* Filesystem and subprocess effects are passed in as explicit oracles
  (`fsExists : String → Bool`, git output as `Except String String`,
  modification times as `String → Int`).
* JavaScript numbers used here are integers (line numbers, counts) or
  rationals (the coverage constant 0.6).
-/

namespace CodeConnoisseur

/-- Embeds `s.startsWith(sub)` on character lists: `jsStartsWithL cs ds`
is true when `ds` is an initial segment of `cs`. -/
def jsStartsWithL : List Char → List Char → Bool
  | _, [] => true
  | [], _ :: _ => false
  | c :: cs, d :: ds => c == d && jsStartsWithL cs ds

/-- Embeds `JavaScript String.prototype.includes` on character lists:
true when `ds` occurs contiguously inside `cs`. -/
def jsIncludesL : List Char → List Char → Bool
  | [], ds => ds.isEmpty
  | c :: cs, ds => jsStartsWithL (c :: cs) ds || jsIncludesL cs ds

/-- Embeds `code.includes(sub)` from the JavaScript source. -/
def jsIncludes (code sub : String) : Bool :=
  jsIncludesL code.data sub.data

/-- Characters of the basename of a path: everything after the last
slash (the whole string when no slash occurs). Embeds the
basename-extraction step shared by the Node `path.basename` and
`path.extname`. -/
def afterLastSlash (cs : List Char) : List Char :=
  ((cs.reverse.takeWhile (fun c => c ≠ '/')).reverse)

/-- Embeds Node `path.basename(p)` for forward-slash paths. -/
def jsBasename (p : String) : String :=
  String.mk (afterLastSlash p.data)

/-- Embeds Node `path.extname(p)`: the suffix of the basename from its
last dot, or `""` when the basename has no dot or the dot is its first
character. -/
def extname (p : String) : String :=
  let b := afterLastSlash p.data
  let afterDot := b.reverse.takeWhile (fun c => c ≠ '.')
  if afterDot.length = b.length then ""
  else if b.length - afterDot.length - 1 = 0 then ""
  else String.mk ('.' :: afterDot.reverse)

/-- Embeds `path.extname(file).toLowerCase().substring(1)` — the
extension key the CLI compares against its allow-list (`src/cli.js`,
review action). -/
def extKey (p : String) : String :=
  String.mk (((extname p).data.map Char.toLower).drop 1)

/-- Embeds Node `path.dirname(p)` for forward-slash paths without a
trailing slash. -/
def dirname (p : String) : String :=
  let rest := p.data.reverse.dropWhile (fun c => c ≠ '/')
  match rest.drop 1 with
  | [] => if rest.isEmpty then "." else "/"
  | cs => String.mk cs.reverse

/-- Embeds Node `path.basename(p, ext)` as used in
`estimateTestCoverage`: the basename with the suffix `ext` removed when
it is a proper suffix. -/
def jsBasenameDrop (p ext : String) : String :=
  let b := jsBasename p
  if ext ≠ "" ∧ jsStartsWithL b.data.reverse ext.data.reverse ∧ b ≠ ext then
    String.mk (b.data.take (b.data.length - ext.data.length))
  else b

/-- Embeds `path.basename(filePath, path.extname(filePath))` — the base
filename without extension used to build test-file candidate names. -/
def basenameNoExt (p : String) : String :=
  jsBasenameDrop p (extname p)

/-- Splits a character list at every newline, keeping empty pieces —
the character-level behavior of JavaScript `s.split('\n')`. -/
def splitLinesL : List Char → List (List Char)
  | [] => [[]]
  | c :: cs =>
    match splitLinesL cs with
    | [] => [[]]
    | l :: ls => if c = '\n' then [] :: l :: ls else (c :: l) :: ls

/-- Embeds `gitOutput.split('\n')` from the review action. -/
def jsSplitNewline (s : String) : List String :=
  (splitLinesL s.data).map String.mk

/-- Embeds Node `path.join(a, b)` for the non-empty relative segments
the program passes to it. -/
def joinPath (a b : String) : String :=
  a ++ "/" ++ b

/-- Embeds `path.resolve(process.cwd(), file)` for the relative paths
git reports. -/
def pathResolve (cwd file : String) : String :=
  joinPath cwd file

/-- Embeds `suggestEdgeCases` from `src/codeAnalyzer.js`: lexical
pattern checks over the code text, each appending fixed suggestion
strings in source order. -/
def suggestEdgeCases (code : String) : List String :=
  (if jsIncludes code ".map(" || jsIncludes code ".filter(" || jsIncludes code ".forEach(" ||
      jsIncludes code ".reduce(" || jsIncludes code ".some(" || jsIncludes code ".every(" then
    ["Test with an empty array", "Test with a very large array (performance)"]
  else []) ++
  (if jsIncludes code ".substring(" || jsIncludes code ".substr(" || jsIncludes code ".slice(" ||
      jsIncludes code ".indexOf(" || jsIncludes code ".split(" then
    ["Test with an empty string", "Test with special characters"]
  else []) ++
  (if !jsIncludes code "=== null" && !jsIncludes code "!== null" &&
      !jsIncludes code "=== undefined" && !jsIncludes code "!== undefined" then
    ["Test with null and undefined values"]
  else []) ++
  (if jsIncludes code "+" || jsIncludes code "-" || jsIncludes code "*" || jsIncludes code "/" then
    ["Test with zero and negative values", "Test with very large numbers"]
  else []) ++
  (if jsIncludes code "async" || jsIncludes code "await" || jsIncludes code ".then(" ||
      jsIncludes code ".catch(" || jsIncludes code "Promise" then
    ["Test error handling in async operations"] ++
    (if !jsIncludes code "try" || !jsIncludes code "catch" then
      ["Add try/catch blocks around async operations"]
    else [])
  else [])

/-- Record of one lint message as produced by the ESLint engine
(`results[0].messages` elements in `runStaticAnalysis`). -/
structure LintMessage where
  message : String
  severity : Nat
  line : Int
  column : Int
  ruleId : Option String
deriving Repr, DecidableEq

/-- One element of the array returned by `eslint.lintText`. -/
structure ESLintResult where
  messages : List LintMessage
deriving Repr, DecidableEq

/-- Issue record produced by `runStaticAnalysis` in
`src/codeAnalyzer.js`; severity is the ESLint numeric code
(1 = warning, 2 = error), and the synthetic failure issue carries no
`ruleId`. -/
structure LintIssue where
  message : String
  severity : Nat
  line : Int
  column : Int
  ruleId : Option String
deriving Repr, DecidableEq

/-- Embeds `runStaticAnalysis(code, filePath)` from
`src/codeAnalyzer.js`. The ESLint engine is an oracle from the code
text and file path to either a result array or a thrown error message.
On success with an empty result array it returns `[]`; otherwise it
maps the messages of the first result; on failure it returns the single
synthetic warning issue. -/
def runStaticAnalysis (engine : String → String → Except String (List ESLintResult))
    (code filePath : String) : List LintIssue :=
  match engine code filePath with
  | .ok results =>
    match results with
    | [] => []
    | r :: _ =>
      r.messages.map fun m =>
        { message := m.message, severity := m.severity, line := m.line,
          column := m.column, ruleId := m.ruleId }
  | .error e =>
    [{ message := "Static analysis currently unavailable: " ++ e,
       severity := 1, line := 1, column := 1, ruleId := none }]

/-- One element of the `changes` array handed to
`estimateTestCoverage`: a line-level diff record with its flags and
position in the new text. -/
structure ChangeRecord where
  added : Bool
  removed : Bool
  value : String
  newLineNumber : Int
  lineCount : Int
deriving Repr, DecidableEq

/-- Line range `{start, end}` as built by `estimateTestCoverage` from
an added change record. -/
structure LineRange where
  start : Int
  endLine : Int
deriving Repr, DecidableEq

/-- Result record of `estimateTestCoverage`. In the no-tests branch the
JavaScript object has no `testFiles` property, embedded as `none`. -/
structure CoverageEstimate where
  coverage : Rat
  testFiles : Option (List String)
  untested : List LineRange
  suggestion : String
deriving Repr, DecidableEq

/-- Embeds the `testDirs` array of `estimateTestCoverage`, including
its duplicated `__tests__` entry. -/
def testDirs : List String :=
  ["__tests__", "tests", "test", "spec", "__tests__"]

/-- Embeds the `testFilePatterns` array of `estimateTestCoverage`. -/
def testFilePatterns (basename : String) : List String :=
  [basename ++ ".test.js", basename ++ ".spec.js",
   "test-" ++ basename ++ ".js", basename ++ "-test.js"]

/-- Candidate test-file paths probed by `estimateTestCoverage`, in the
order the source probes them: each pattern in the own directory of the file,
then each pattern under each conventional test directory beneath the
project root. -/
def searchedPaths (projectRoot filePath : String) : List String :=
  let basename := basenameNoExt filePath
  let fileDir := dirname filePath
  (testFilePatterns basename).map (fun pat => joinPath fileDir pat) ++
    (testDirs.map (fun d =>
      (testFilePatterns basename).map (fun pat => joinPath (joinPath projectRoot d) pat))).flatten

/-- The `{start, end}` range built from an added change record:
`start = newLineNumber`, `end = newLineNumber + lineCount - 1`. -/
def changeRange (c : ChangeRecord) : LineRange :=
  { start := c.newLineNumber, endLine := c.newLineNumber + c.lineCount - 1 }

/-- Embeds `estimateTestCoverage(filePath, changes)` from
`src/codeAnalyzer.js`. `fsExists` is the `fs.existsSync` oracle and
`projectRoot` is `process.cwd()`. -/
def estimateTestCoverage (fsExists : String → Bool) (projectRoot : String)
    (filePath : String) (changes : List ChangeRecord) : CoverageEstimate :=
  let basename := basenameNoExt filePath
  let testFilesFound := (searchedPaths projectRoot filePath).filter fsExists
  if testFilesFound.length = 0 then
    { coverage := 0,
      testFiles := none,
      untested := (changes.filter (fun c => c.added)).map changeRange,
      suggestion := "No test files found for " ++ basename ++ ". Consider creating tests." }
  else
    let addedChanges := changes.filter (fun c => c.added)
    { coverage := if 0 < testFilesFound.length then 6 / 10 else 0,
      testFiles := some testFilesFound,
      untested := addedChanges.map changeRange,
      suggestion := toString testFilesFound.length ++
        " test file(s) found. Verify test coverage for the changes." }

/-- Filesystem tree handed to the recursive scan: what
`fs.readdirSync` / `fs.statSync` would reveal under the target
directory. -/
inductive FSEntry where
  | file (name : String)
  | dir (name : String) (entries : List FSEntry)

/-- Embeds `getAllFiles(dir, extensions, excluded)` from the review
action of `src/cli.js`: walk the entries of `dir`, skip any entry whose
full path contains an exclusion token as a substring, recurse into
directories, and collect files whose lowercased dot-stripped extension
is in the allow-list. -/
def getAllFiles (extensions excluded : List String) (dir : String) :
    List FSEntry → List String
  | [] => []
  | .file name :: rest =>
    let itemPath := joinPath dir name
    if excluded.any (fun excl => jsIncludes itemPath excl) then
      getAllFiles extensions excluded dir rest
    else if extensions.contains (extKey itemPath) then
      itemPath :: getAllFiles extensions excluded dir rest
    else
      getAllFiles extensions excluded dir rest
  | .dir name sub :: rest =>
    let itemPath := joinPath dir name
    if excluded.any (fun excl => jsIncludes itemPath excl) then
      getAllFiles extensions excluded dir rest
    else
      getAllFiles extensions excluded itemPath sub ++ getAllFiles extensions excluded dir rest

/-- The `MAX_FILES` constant of the review action in `src/cli.js`. -/
def MAX_FILES : Nat := 10

/-- Ordering used by `filesToReview.sort((a, b) => b.mtime - a.mtime)`:
pair `a` may precede pair `b` exactly when `b.mtime - a.mtime ≤ 0`. -/
def mtimeDescending (a b : String × Int) : Prop :=
  b.2 ≤ a.2

instance : DecidableRel mtimeDescending :=
  fun a b => inferInstanceAs (Decidable (b.2 ≤ a.2))

instance : IsTotal (String × Int) mtimeDescending :=
  ⟨fun a b => le_total b.2 a.2⟩

instance : IsTrans (String × Int) mtimeDescending :=
  ⟨fun _ _ _ hab hbc => le_trans hbc hab⟩

/-- Embeds the `MAX_FILES` cap of the review action: when more than
`MAX_FILES` files were found, pair each with its modification time,
sort descending by modification time (stable, like the JavaScript sort),
keep the first `MAX_FILES` and project back to paths; otherwise keep
the list unchanged. `mtimeOf` is the `fs.statSync(file).mtime`
oracle. -/
def capByRecency (mtimeOf : String → Int) (files : List String) : List String :=
  if MAX_FILES < files.length then
    ((((files.map (fun f => (f, mtimeOf f))).insertionSort mtimeDescending).take MAX_FILES).map
      Prod.fst)
  else files

/-- Embeds the change-set discovery of the review action in
`src/cli.js` (before the recency cap). `gitDiff` is the outcome of
`execSync("git diff --name-only HEAD -- <path>")`: either its stdout
text or a thrown error. Non-empty git output is split on newlines,
filtered to truthy lines, filtered by the extension allow-list, and
resolved against the working directory; an error or empty output falls
back to the recursive scan of `tree` rooted at `absolutePath`. -/
def resolveChangeSet (cwd : String) (extensionsToInclude excludedDirs : List String)
    (gitDiff : Except String String) (absolutePath : String) (tree : List FSEntry) :
    List String :=
  match gitDiff with
  | .ok gitOutput =>
    let changedFiles := (jsSplitNewline gitOutput).filter (fun s => s ≠ "")
    if 0 < changedFiles.length then
      (changedFiles.filter (fun file => extensionsToInclude.contains (extKey file))).map
        (fun file => pathResolve cwd file)
    else
      getAllFiles extensionsToInclude excludedDirs absolutePath tree
  | .error _ =>
    getAllFiles extensionsToInclude excludedDirs absolutePath tree

/-- Embeds the per-file loop of the directory review: each file is fed
to the reviewer; a success is appended to `reviews` as
`{filePath, review}`, a thrown error becomes the spinner warning and
the file is skipped. Returns `(reviews, warnings)` in visit order. -/
def batchLoop {R : Type} (reviewFile : String → Except String R) :
    List String → List (String × R) × List String
  | [] => ([], [])
  | filePath :: rest =>
    let acc := batchLoop reviewFile rest
    match reviewFile filePath with
    | .ok review => ((filePath, review) :: acc.1, acc.2)
    | .error e =>
      (acc.1, ("Failed to review " ++ jsBasename filePath ++ ": " ++ e) :: acc.2)

/-- Terminal outcome of the directory-mode review action: either the
fatal "no files" exit (`spinner.fail` message plus `process.exit`
code), or the completed list of reviews with the per-file skip
warnings. -/
inductive ReviewOutcome (R : Type) where
  | fatal (message : String) (exitCode : Nat)
  | reviewed (reviews : List (String × R)) (warnings : List String)
deriving Repr, DecidableEq

/-- Embeds the directory-mode review action of `src/cli.js` end to
end: resolve the change set, cap by recency, exit fatally when nothing
is left, otherwise run the per-file loop. -/
def reviewBatch {R : Type} (cwd : String) (extensionsToInclude excludedDirs : List String)
    (gitDiff : Except String String) (absolutePath : String) (tree : List FSEntry)
    (mtimeOf : String → Int) (reviewFile : String → Except String R) : ReviewOutcome R :=
  let filesToReview :=
    capByRecency mtimeOf (resolveChangeSet cwd extensionsToInclude excludedDirs gitDiff
      absolutePath tree)
  if filesToReview.length = 0 then
    .fatal "No matching files found to review" 1
  else
    let result := batchLoop reviewFile filesToReview
    .reviewed result.1 result.2

/-- Reviewer oracle used to witness the batch-loop theorem: fails on
`bad.js` and succeeds elsewhere. -/
def reviewFileEx : String → Except String Nat :=
  fun f => if f = "bad.js" then .error "boom" else .ok 7

/-- Engine oracle used to witness the static-analysis theorem: always
throws. -/
def engineFailEx : String → String → Except String (List ESLintResult) :=
  fun _ _ => .error "Parsing error"

/-- C5: for every code text and file path, when the lint engine throws,
`runStaticAnalysis` returns exactly one synthetic issue with severity 1
(the ESLint warning code), line 1, column 1, and a message stating the
analysis is unavailable; when the engine returns an empty result array
it returns the empty list. -/
theorem runStaticAnalysis_error_policy
    (engine : String → String → Except String (List ESLintResult)) (code filePath : String) :
    (∀ e, engine code filePath = .error e →
      runStaticAnalysis engine code filePath =
        [{ message := "Static analysis currently unavailable: " ++ e,
           severity := 1, line := 1, column := 1, ruleId := none }])
    ∧ (engine code filePath = .ok [] → runStaticAnalysis engine code filePath = []) := by
  constructor
  · intro e he
    simp [runStaticAnalysis, he]
  · intro h
    simp [runStaticAnalysis, h]

theorem runStaticAnalysis_error_policy_witness :
    runStaticAnalysis engineFailEx "const x = 1" "a.js" =
      [{ message := "Static analysis currently unavailable: Parsing error",
         severity := 1, line := 1, column := 1, ruleId := none }] :=
  (runStaticAnalysis_error_policy engineFailEx "const x = 1" "a.js").1 "Parsing error" rfl

/-- C8 (counterexample): on the new text of the specified scenario the
edge-case advisor does not return the empty list — the null-check
branch has no operator gate, so it fires. -/
theorem suggestEdgeCases_scenario_counterexample :
    suggestEdgeCases "function f(){return 1;}\n" ≠ ([] : List String) := by
  decide

/-- C8 (amended): on the new text `"function f(){return 1;}\n"` the
edge-case advisor returns exactly the single null/undefined
suggestion. -/
theorem suggestEdgeCases_scenario_amended :
    suggestEdgeCases "function f(){return 1;}\n" = ["Test with null and undefined values"] := by
  decide

/-- C10: any text lacking all four null/undefined equality substrings
receives the null/undefined suggestion regardless of its other
contents, and on the empty string the advisor returns exactly that
single suggestion. -/
theorem null_check_suggestion (code : String)
    (h1 : jsIncludes code "=== null" = false) (h2 : jsIncludes code "!== null" = false)
    (h3 : jsIncludes code "=== undefined" = false)
    (h4 : jsIncludes code "!== undefined" = false) :
    "Test with null and undefined values" ∈ suggestEdgeCases code
    ∧ suggestEdgeCases "" = ["Test with null and undefined values"] := by
  refine ⟨?_, by decide⟩
  simp [suggestEdgeCases, h1, h2, h3, h4]

theorem null_check_suggestion_witness :
    "Test with null and undefined values" ∈ suggestEdgeCases "let x = y.foo()"
    ∧ suggestEdgeCases "" = ["Test with null and undefined values"] :=
  null_check_suggestion "let x = y.foo()" (by decide) (by decide) (by decide) (by decide)

theorem batchLoop_reviews_eq {R : Type} (reviewFile : String → Except String R)
    (files : List String) :
    (batchLoop reviewFile files).1 =
      files.filterMap (fun f =>
        match reviewFile f with
        | .ok r => some (f, r)
        | .error _ => none) := by
  induction files with
  | nil => rfl
  | cons f rest ih =>
    simp only [batchLoop, List.filterMap_cons]
    cases hf : reviewFile f <;> simp [hf, ih]

theorem batchLoop_warnings_eq {R : Type} (reviewFile : String → Except String R)
    (files : List String) :
    (batchLoop reviewFile files).2 =
      files.filterMap (fun f =>
        match reviewFile f with
        | .ok _ => none
        | .error e => some ("Failed to review " ++ jsBasename f ++ ": " ++ e)) := by
  induction files with
  | nil => rfl
  | cons f rest ih =>
    simp only [batchLoop, List.filterMap_cons]
    cases hf : reviewFile f <;> simp [hf, ih]

theorem batchLoop_skip {R : Type} (reviewFile : String → Except String R)
    (pre post : List String) (bad : String) (e : String)
    (hbad : reviewFile bad = .error e) :
    (batchLoop reviewFile (pre ++ bad :: post)).1 = (batchLoop reviewFile (pre ++ post)).1 := by
  induction pre with
  | nil => simp [batchLoop, hbad]
  | cons f rest ih =>
    simp only [List.cons_append, batchLoop]
    cases hf : reviewFile f <;> simp [hf, ih]

/-- C4: the reviews of the batch loop are exactly the successfully reviewed
files in visit order, its warnings are exactly the per-file failure
messages in visit order, and removing a failing file from anywhere in
the list leaves the produced reviews unchanged — a single failure never
aborts the batch. -/
theorem batch_loop_partial_failure {R : Type} (reviewFile : String → Except String R)
    (files : List String) :
    ((batchLoop reviewFile files).1 =
      files.filterMap (fun f =>
        match reviewFile f with
        | .ok r => some (f, r)
        | .error _ => none))
    ∧ ((batchLoop reviewFile files).2 =
      files.filterMap (fun f =>
        match reviewFile f with
        | .ok _ => none
        | .error e => some ("Failed to review " ++ jsBasename f ++ ": " ++ e)))
    ∧ (∀ pre post bad e, reviewFile bad = .error e →
        (batchLoop reviewFile (pre ++ bad :: post)).1 =
          (batchLoop reviewFile (pre ++ post)).1) :=
  ⟨batchLoop_reviews_eq reviewFile files, batchLoop_warnings_eq reviewFile files,
    fun pre post bad e hbad => batchLoop_skip reviewFile pre post bad e hbad⟩

theorem batch_loop_partial_failure_witness :
    (batchLoop reviewFileEx (["a.js"] ++ "bad.js" :: ["b.js"])).1 =
      (batchLoop reviewFileEx (["a.js"] ++ ["b.js"])).1 :=
  (batch_loop_partial_failure reviewFileEx []).2.2 ["a.js"] ["b.js"] "bad.js" "boom"
    (by simp [reviewFileEx])

/-- C6: when no candidate test file exists at any searched location,
the estimator returns coverage 0, an untested list that is exactly the
range of every added change record (so its length is the added-record
count), and the add-tests suggestion. -/
theorem estimateTestCoverage_no_tests
    (fsExists : String → Bool) (projectRoot filePath : String) (changes : List ChangeRecord)
    (h : ∀ p ∈ searchedPaths projectRoot filePath, fsExists p = false) :
    (estimateTestCoverage fsExists projectRoot filePath changes).coverage = 0
    ∧ (estimateTestCoverage fsExists projectRoot filePath changes).untested =
        (changes.filter (fun c => c.added)).map changeRange
    ∧ (estimateTestCoverage fsExists projectRoot filePath changes).untested.length =
        (changes.filter (fun c => c.added)).length
    ∧ (estimateTestCoverage fsExists projectRoot filePath changes).suggestion =
        "No test files found for " ++ basenameNoExt filePath ++ ". Consider creating tests." := by
  have hfilter : (searchedPaths projectRoot filePath).filter fsExists = [] := by
    rw [List.filter_eq_nil_iff]
    intro p hp
    simp [h p hp]
  refine ⟨?_, ?_, ?_, ?_⟩ <;> simp [estimateTestCoverage, hfilter]

theorem estimateTestCoverage_no_tests_witness :
    (estimateTestCoverage (fun _ => false) "proj" "src/a.js"
        [{ added := true, removed := false, value := "x", newLineNumber := 3,
           lineCount := 2 }]).coverage = 0 :=
  (estimateTestCoverage_no_tests (fun _ => false) "proj" "src/a.js"
    [{ added := true, removed := false, value := "x", newLineNumber := 3, lineCount := 2 }]
    (fun _ _ => rfl)).1

/-- The four conventional test directories named by the specification;
used to compare the searched scopes of the code (which repeat `__tests__`)
against the two-scope description of the specification. -/
def conventionalTestDirs : List String :=
  ["__tests__", "tests", "test", "spec"]

/-- C7: when at least one candidate test file exists, the estimator
returns the fixed heuristic constant 0.6, an untested list still built
from the added ranges, and a suggestion naming the number of candidate
files found; moreover the searched locations are exactly the own
directory plus the four conventional test directories under the project
root. -/
theorem estimateTestCoverage_tests_found
    (fsExists : String → Bool) (projectRoot filePath : String) (changes : List ChangeRecord)
    (h : ∃ p ∈ searchedPaths projectRoot filePath, fsExists p = true) :
    (estimateTestCoverage fsExists projectRoot filePath changes).coverage = 6 / 10
    ∧ (estimateTestCoverage fsExists projectRoot filePath changes).untested =
        (changes.filter (fun c => c.added)).map changeRange
    ∧ (estimateTestCoverage fsExists projectRoot filePath changes).suggestion =
        toString ((searchedPaths projectRoot filePath).filter fsExists).length ++
          " test file(s) found. Verify test coverage for the changes."
    ∧ (∀ q, q ∈ searchedPaths projectRoot filePath ↔
        q ∈ (testFilePatterns (basenameNoExt filePath)).map
              (fun pat => joinPath (dirname filePath) pat) ++
            (conventionalTestDirs.map (fun d =>
              (testFilePatterns (basenameNoExt filePath)).map
                (fun pat => joinPath (joinPath projectRoot d) pat))).flatten) := by
  obtain ⟨p, hp, hfp⟩ := h
  have hmem : p ∈ (searchedPaths projectRoot filePath).filter fsExists :=
    List.mem_filter.mpr ⟨hp, hfp⟩
  have hne : (searchedPaths projectRoot filePath).filter fsExists ≠ [] :=
    List.ne_nil_of_mem hmem
  have hlen : ¬((searchedPaths projectRoot filePath).filter fsExists).length = 0 := by
    simpa [List.length_eq_zero] using hne
  refine ⟨?_, ?_, ?_, ?_⟩
  · simp [estimateTestCoverage, hlen, Nat.pos_of_ne_zero hlen]
  · simp [estimateTestCoverage, hlen]
  · simp [estimateTestCoverage, hlen]
  · intro q
    simp only [searchedPaths, testDirs, conventionalTestDirs, List.map_cons, List.map_nil,
      List.flatten_cons, List.flatten_nil, List.mem_append, List.append_nil]
    tauto

theorem estimateTestCoverage_tests_found_witness :
    (estimateTestCoverage (fun p => p == "src/a.test.js") "proj" "src/a.js" []).coverage =
      6 / 10 :=
  (estimateTestCoverage_tests_found (fun p => p == "src/a.test.js") "proj" "src/a.js" []
    ⟨"src/a.test.js", by decide, by decide⟩).1

/-- C9: when change-set resolution (after the recency cap) selects zero
files, the directory review terminates in the fatal "No matching files
found to review" state with exit code 1 — a defined terminal outcome
with a non-zero exit signal, not a crash. -/
theorem empty_selection_terminal_state {R : Type} (cwd : String)
    (extensionsToInclude excludedDirs : List String) (gitDiff : Except String String)
    (absolutePath : String) (tree : List FSEntry) (mtimeOf : String → Int)
    (reviewFile : String → Except String R)
    (h : capByRecency mtimeOf
        (resolveChangeSet cwd extensionsToInclude excludedDirs gitDiff absolutePath tree) = []) :
    reviewBatch cwd extensionsToInclude excludedDirs gitDiff absolutePath tree mtimeOf
        reviewFile = ReviewOutcome.fatal "No matching files found to review" 1
    ∧ (1 : Nat) ≠ 0 := by
  refine ⟨?_, by decide⟩
  simp [reviewBatch, h]

theorem empty_selection_terminal_state_witness :
    reviewBatch "proj" ["js"] ["node_modules"] (.ok "x.txt") "proj/src" [] (fun _ => 0)
        (fun _ => Except.ok (0 : Nat)) =
      ReviewOutcome.fatal "No matching files found to review" 1 :=
  (empty_selection_terminal_state "proj" ["js"] ["node_modules"] (.ok "x.txt") "proj/src" []
    (fun _ => 0) (fun _ => Except.ok (0 : Nat)) (by decide)).1

/-- C3: a failing git diff command, or one whose output contains no
non-empty line, makes change-set resolution return exactly the
recursive-scan result; and under a failing git command the only fatal
outcome the review action can produce is the "no matching files" exit —
the git failure itself is never surfaced as the fatal error. -/
theorem vcs_fallback_correctness {R : Type} (cwd : String)
    (extensionsToInclude excludedDirs : List String) (absolutePath : String)
    (tree : List FSEntry) (mtimeOf : String → Int) (reviewFile : String → Except String R) :
    (∀ e, resolveChangeSet cwd extensionsToInclude excludedDirs (.error e) absolutePath tree =
        getAllFiles extensionsToInclude excludedDirs absolutePath tree)
    ∧ (∀ gitOutput, (jsSplitNewline gitOutput).filter (fun s => s ≠ "") = [] →
        resolveChangeSet cwd extensionsToInclude excludedDirs (.ok gitOutput) absolutePath
            tree =
          getAllFiles extensionsToInclude excludedDirs absolutePath tree)
    ∧ (∀ e msg code,
        reviewBatch cwd extensionsToInclude excludedDirs (.error e) absolutePath tree mtimeOf
            reviewFile = ReviewOutcome.fatal msg code →
          msg = "No matching files found to review" ∧ code = 1) := by
  refine ⟨fun e => rfl, ?_, ?_⟩
  · intro gitOutput hempty
    simp only [resolveChangeSet, hempty, List.length_nil]
    simp
  · intro e msg code h
    by_cases hlen : (capByRecency mtimeOf (resolveChangeSet cwd extensionsToInclude
        excludedDirs (.error e) absolutePath tree)).length = 0
    · simp only [reviewBatch, if_pos hlen] at h
      injection h with h1 h2
      exact ⟨h1.symm, h2.symm⟩
    · simp only [reviewBatch, if_neg hlen] at h
      exact absurd h (by simp)

theorem vcs_fallback_correctness_witness :
    resolveChangeSet "proj" ["js"] ["node_modules"] (.ok "") "proj/src"
        [FSEntry.file "a.js"] =
      getAllFiles ["js"] ["node_modules"] "proj/src" [FSEntry.file "a.js"] :=
  (vcs_fallback_correctness "proj" ["js"] ["node_modules"] "proj/src" [FSEntry.file "a.js"]
    (fun _ => 0) (fun _ => Except.ok (0 : Nat))).2.1 "" (by decide)

theorem takeWhile_append_of_neg {α : Type} {p : α → Bool} {y : α} (hy : p y = false)
    (xs ys : List α) : (xs ++ y :: ys).takeWhile p = xs.takeWhile p := by
  induction xs with
  | nil => simp [List.takeWhile_cons, hy]
  | cons c cs ih => simp [List.takeWhile_cons, ih]

theorem afterLastSlash_append (a b : String) :
    afterLastSlash ((a ++ "/" ++ b) : String).data = afterLastSlash b.data := by
  have hdata : ((a ++ "/" ++ b) : String).data = a.data ++ '/' :: b.data := by
    rw [String.data_append, String.data_append, List.append_assoc]
    rfl
  unfold afterLastSlash
  rw [hdata, List.reverse_append, List.reverse_cons, List.append_assoc,
    List.singleton_append,
    takeWhile_append_of_neg (y := '/') (by decide) b.data.reverse]

theorem extname_joinPath (a b : String) : extname (joinPath a b) = extname b := by
  unfold extname joinPath
  rw [afterLastSlash_append]

theorem extKey_joinPath (a b : String) : extKey (joinPath a b) = extKey b := by
  unfold extKey
  rw [extname_joinPath]

theorem getAllFiles_mem (extensions excluded : List String) (dir : String)
    (tree : List FSEntry) :
    ∀ p ∈ getAllFiles extensions excluded dir tree,
      extensions.contains (extKey p) = true ∧ ∀ t ∈ excluded, jsIncludes p t = false := by
  induction dir, tree using getAllFiles.induct extensions excluded with
  | case1 dir => simp [getAllFiles]
  | case2 dir name rest itemPath hexcl ih =>
    intro p hp
    rw [getAllFiles, if_pos hexcl] at hp
    exact ih p hp
  | case3 dir name rest itemPath hexcl hext ih =>
    intro p hp
    rw [getAllFiles, if_neg hexcl, if_pos hext] at hp
    rcases List.mem_cons.mp hp with rfl | hp2
    · refine ⟨hext, ?_⟩
      have h0 : (excluded.any fun excl => jsIncludes itemPath excl) = false :=
        Bool.eq_false_iff.mpr hexcl
      simp only [List.any_eq_false] at h0
      intro t ht
      exact Bool.eq_false_iff.mpr (h0 t ht)
    · exact ih p hp2
  | case4 dir name rest itemPath hexcl hext ih =>
    intro p hp
    rw [getAllFiles, if_neg hexcl, if_neg hext] at hp
    exact ih p hp
  | case5 dir name sub rest itemPath hexcl ih =>
    intro p hp
    rw [getAllFiles, if_pos hexcl] at hp
    exact ih p hp
  | case6 dir name sub rest itemPath hexcl ihsub ihrest =>
    intro p hp
    rw [getAllFiles, if_neg hexcl] at hp
    rcases List.mem_append.mp hp with hp1 | hp2
    · exact ihsub p hp1
    · exact ihrest p hp2

theorem mem_capByRecency (mtimeOf : String → Int) (files : List String) (p : String)
    (hp : p ∈ capByRecency mtimeOf files) : p ∈ files := by
  unfold capByRecency at hp
  by_cases h : MAX_FILES < files.length
  · rw [if_pos h] at hp
    obtain ⟨pair, hpair, rfl⟩ := List.mem_map.mp hp
    have h1 : pair ∈ (files.map (fun f => (f, mtimeOf f))).insertionSort mtimeDescending :=
      List.take_subset _ _ hpair
    have h2 : pair ∈ files.map (fun f => (f, mtimeOf f)) :=
      (List.perm_insertionSort mtimeDescending _).mem_iff.mp h1
    obtain ⟨f, hf, hpf⟩ := List.mem_map.mp h2
    cases hpf
    exact hf
  · rwa [if_neg h] at hp

/-- Condition under which the review action takes the recursive-scan
fallback: the git diff command threw, or its output contained no
non-empty line. -/
def usesFallback (gitDiff : Except String String) : Prop :=
  match gitDiff with
  | .error _ => True
  | .ok gitOutput => (jsSplitNewline gitOutput).filter (fun s => s ≠ "") = []

/-- C2 (amended): every path in the selected change set has its
lowercased dot-stripped extension in the allow-list in both discovery
paths; exclusion-token filtering, however, holds only when the
recursive-scan fallback was used — git-discovered paths are filtered by
extension alone. -/
theorem selected_filtering (cwd : String) (extensionsToInclude excludedDirs : List String)
    (gitDiff : Except String String) (absolutePath : String) (tree : List FSEntry)
    (mtimeOf : String → Int) :
    (∀ p ∈ capByRecency mtimeOf (resolveChangeSet cwd extensionsToInclude excludedDirs
        gitDiff absolutePath tree), extensionsToInclude.contains (extKey p) = true)
    ∧ (usesFallback gitDiff →
        ∀ p ∈ capByRecency mtimeOf (resolveChangeSet cwd extensionsToInclude excludedDirs
            gitDiff absolutePath tree), ∀ t ∈ excludedDirs, jsIncludes p t = false) := by
  constructor
  · intro p hp
    have hres := mem_capByRecency mtimeOf _ p hp
    match gitDiff with
    | .error e =>
      exact (getAllFiles_mem extensionsToInclude excludedDirs absolutePath tree p hres).1
    | .ok gitOutput =>
      rw [resolveChangeSet] at hres
      by_cases hlen :
          0 < ((jsSplitNewline gitOutput).filter (fun s => s ≠ "")).length
      · rw [if_pos hlen] at hres
        obtain ⟨f, hf, rfl⟩ := List.mem_map.mp hres
        have hext := (List.mem_filter.mp hf).2
        rw [pathResolve]
        rw [extKey_joinPath]
        exact hext
      · rw [if_neg hlen] at hres
        exact (getAllFiles_mem extensionsToInclude excludedDirs absolutePath tree p hres).1
  · intro hfb p hp
    have hres := mem_capByRecency mtimeOf _ p hp
    match gitDiff with
    | .error e =>
      exact (getAllFiles_mem extensionsToInclude excludedDirs absolutePath tree p hres).2
    | .ok gitOutput =>
      have hempty : (jsSplitNewline gitOutput).filter (fun s => s ≠ "") = [] := hfb
      rw [resolveChangeSet, hempty] at hres
      simp only [List.length_nil, Nat.lt_irrefl, if_false] at hres
      exact (getAllFiles_mem extensionsToInclude excludedDirs absolutePath tree p hres).2

/-- C2 (counterexample): with allow-list `["js"]` and exclusion list
`["node_modules"]`, a git diff reporting `node_modules/a.js` puts a
path containing the exclusion token into the selected change set — the
version-control discovery path applies no exclusion filtering. -/
theorem git_path_exclusion_counterexample :
    "/repo/node_modules/a.js" ∈ capByRecency (fun _ => 0)
        (resolveChangeSet "/repo" ["js"] ["node_modules"] (.ok "node_modules/a.js")
          "/repo/src" [])
    ∧ jsIncludes "/repo/node_modules/a.js" "node_modules" = true := by
  decide

/-- C1: the emitted selection never exceeds `MAX_FILES` entries; at
most `MAX_FILES` candidates pass through unchanged (order-preserving
copy); and above the cap the selection has exactly `MAX_FILES` entries,
is sorted descending by modification time, and together with the
dropped remainder is a permutation of the candidates in which every
dropped modification time is at most every selected one — the
`MAX_FILES` most recently modified candidates. -/
theorem selection_cap_invariant (mtimeOf : String → Int) (files : List String) :
    (capByRecency mtimeOf files).length ≤ MAX_FILES
    ∧ (files.length ≤ MAX_FILES → capByRecency mtimeOf files = files)
    ∧ (MAX_FILES < files.length →
        (capByRecency mtimeOf files).length = MAX_FILES
        ∧ List.Sorted (fun a b => mtimeOf b ≤ mtimeOf a) (capByRecency mtimeOf files)
        ∧ ∃ rest : List String,
            (capByRecency mtimeOf files ++ rest).Perm files
            ∧ ∀ x ∈ capByRecency mtimeOf files, ∀ y ∈ rest, mtimeOf y ≤ mtimeOf x) := by
  by_cases h : MAX_FILES < files.length
  case neg =>
    have hcap : capByRecency mtimeOf files = files := by
      rw [capByRecency, if_neg h]
    refine ⟨?_, fun _ => hcap, fun hlt => absurd hlt h⟩
    rw [hcap]
    exact Nat.le_of_not_lt h
  case pos =>
    set pairs := files.map (fun f => (f, mtimeOf f)) with hpairs
    set sorted := pairs.insertionSort mtimeDescending with hsorteddef
    have hperm : sorted.Perm pairs := List.perm_insertionSort _ _
    have hlen_sorted : sorted.length = files.length := by
      rw [hperm.length_eq, hpairs, List.length_map]
    have hcap : capByRecency mtimeOf files = (sorted.take MAX_FILES).map Prod.fst := by
      rw [capByRecency, if_pos h]
    have hsnd : ∀ x ∈ sorted, x.2 = mtimeOf x.1 := by
      intro x hx
      obtain ⟨f, _, rfl⟩ := List.mem_map.mp (hperm.mem_iff.mp hx)
      rfl
    have hsorted : List.Pairwise mtimeDescending sorted :=
      List.sorted_insertionSort _ _
    have hpw : List.Pairwise mtimeDescending (sorted.take MAX_FILES ++ sorted.drop MAX_FILES) := by
      rw [List.take_append_drop]
      exact hsorted
    rw [List.pairwise_append] at hpw
    obtain ⟨hpw_take, _, hpw_cross⟩ := hpw
    have hlen_cap : (capByRecency mtimeOf files).length = MAX_FILES := by
      rw [hcap, List.length_map, List.length_take, hlen_sorted]
      exact Nat.min_eq_left (Nat.le_of_lt h)
    refine ⟨by rw [hlen_cap], fun hle => absurd h (Nat.not_lt.mpr hle), fun _ => ?_⟩
    refine ⟨hlen_cap, ?_, ?_⟩
    · rw [hcap]
      unfold List.Sorted
      rw [List.pairwise_map]
      refine hpw_take.imp_of_mem ?_
      intro a b ha hb hab
      have ha' := List.take_subset MAX_FILES sorted ha
      have hb' := List.take_subset MAX_FILES sorted hb
      have := hab
      rw [mtimeDescending, hsnd a ha', hsnd b hb'] at this
      exact this
    · refine ⟨(sorted.drop MAX_FILES).map Prod.fst, ?_, ?_⟩
      · rw [hcap, ← List.map_append, List.take_append_drop]
        have h1 : (sorted.map Prod.fst).Perm (pairs.map Prod.fst) := hperm.map _
        have h2 : pairs.map Prod.fst = files := by
          rw [hpairs, List.map_map]
          exact List.map_id files
        rwa [h2] at h1
      · intro x hx y hy
        rw [hcap] at hx
        obtain ⟨a, ha, rfl⟩ := List.mem_map.mp hx
        obtain ⟨b, hb, rfl⟩ := List.mem_map.mp hy
        have hab := hpw_cross a ha b hb
        rw [mtimeDescending, hsnd a (List.take_subset _ _ ha),
          hsnd b (List.drop_subset _ _ hb)] at hab
        exact hab

theorem selection_cap_invariant_witness :
    capByRecency (fun _ => 0) ["a.js"] = ["a.js"] :=
  (selection_cap_invariant (fun _ => 0) ["a.js"]).2.1 (by decide)

theorem selected_filtering_witness :
    ∀ p ∈ capByRecency (fun _ => (0 : Int))
        (resolveChangeSet "/repo" ["js"] ["node_modules"]
          (.error "not a git repository") "/repo/src" [FSEntry.file "a.js"]),
      ∀ t ∈ ["node_modules"], jsIncludes p t = false :=
  (selected_filtering "/repo" ["js"] ["node_modules"] (.error "not a git repository")
    "/repo/src" [FSEntry.file "a.js"] (fun _ => 0)).2 True.intro

end CodeConnoisseur
